import Mathlib

/-!
Verification of the webbrain-parser repository (canonical version:
`src/parser.v2.js`, which agrees with `src/parser.v2.ts`; `src/unnamed/part_000`
is an older near-duplicate of the same logic).

The JavaScript code is shallowly embedded as follows:

- strings are Lean `String`, and `for (let char of text)` loops over
  `String.data` (JavaScript iterates code points, Lean `Char` is a code point);
- a possibly-undefined JavaScript value read out of an array destructuring is
  an `Option String` (`none` = `undefined`);
- JavaScript numbers are modeled as integers or NaN; the script grammar only
  ever produces integers, so fractional, hexadecimal and exponent literals
  are not modeled;
- a JavaScript `throw` is the `Except.error` case; the original (Korean)
  error messages are replaced by short English equivalents, their identity
  is irrelevant to the claims;
- the object `this.stimulus` is modeled with full JavaScript property
  semantics: insertion-ordered own entries (assigning an existing key
  overwrites in place, a fresh key appends) plus the prototype chain.
  Reads fall through to the inherited `Object.prototype` members, which are
  truthy, and an assignment to the key `__proto__` hits the inherited
  accessor, replacing the prototype instead of creating an own key.
-/

deriving instance DecidableEq for Except

namespace WebbrainParser

/-! ### JavaScript string primitives used by the source -/

/-- Characters removed by `String.prototype.trim` (ASCII subset; the source
scripts only ever contain ASCII whitespace). -/
def jsWhitespace (c : Char) : Bool :=
  c == ' ' || c == '\t' || c == '\n' || c == '\r' || c == '\x0b' || c == '\x0c'

/-- Embedding of `String.prototype.trim`. -/
def jsTrim (s : String) : String :=
  String.mk (((s.data.dropWhile jsWhitespace).reverse.dropWhile jsWhitespace).reverse)

/-- Embedding of `String.prototype.split` with a one-character separator,
at the level of character lists: one token per separator-separated span,
empty tokens included (JavaScript semantics). -/
def jsSplitList (d : Char) : List Char → List (List Char)
  | [] => [[]]
  | c :: cs =>
    if c == d then [] :: jsSplitList d cs
    else
      match jsSplitList d cs with
      | [] => [[c]]
      | w :: ws => (c :: w) :: ws

/-- Embedding of `String.prototype.split` with a one-character separator,
used by the source both as `split("\n")` (constructor) and `split(" ")`
(`parseSequence`) and `split(",")` (choices resolution). -/
def jsSplit (s : String) (d : Char) : List String :=
  (jsSplitList d s.data).map (fun w => String.mk w)

/-- Leading-digit parser shared by the number models below. -/
def digitsToNat : List Char → Nat → Nat
  | [], acc => acc
  | c :: cs, acc => digitsToNat cs (acc * 10 + (c.toNat - '0'.toNat))

/-- Embedding of the unary `+` string-to-number conversion (`+token`) on the
integral inputs the script grammar admits: `none` is NaN, otherwise the
whitespace-trimmed string must be empty (value 0) or an optionally signed
digit run. -/
def jsToNumber (s : String) : Option Int :=
  let t := (jsTrim s).data
  match t with
  | [] => some 0
  | '-' :: ds => if ds ≠ [] ∧ ds.all Char.isDigit then some (-(digitsToNat ds 0 : Int)) else none
  | '+' :: ds => if ds ≠ [] ∧ ds.all Char.isDigit then some (digitsToNat ds 0 : Int) else none
  | ds => if ds.all Char.isDigit then some (digitsToNat ds 0 : Int) else none

/-- Embedding of `parseInt`: after trimming, an optional sign followed by the
longest leading digit run; NaN (`none`) when that run is empty. -/
def parseIntJs (s : String) : Option Int :=
  let t := (jsTrim s).data
  let signed : Int × List Char :=
    match t with
    | '-' :: ds => (-1, ds)
    | '+' :: ds => (1, ds)
    | ds => (1, ds)
  let digits := signed.2.takeWhile Char.isDigit
  if digits.isEmpty then none else some (signed.1 * (digitsToNat digits 0 : Int))

/-! ### Tokenizer: `Parser.splitWithEscapedCharacter` (src/parser.v2.js:95-122)

The JavaScript loop keeps a `resultArray` accumulator and pushes each flushed
`wordBuffer` onto it; the recursion below emits each flushed word at its
position instead, which produces the same list in the same order. The
`switch` tests `case pairChar` before `case splitChar`, mirrored by the order
of the two conditionals. -/

def swecGo (splitChar pairChar : Char) : List Char → Bool → List Char → List String
  | [], _, _ => []
  | c :: cs, isPairOpen, wordBuffer =>
    if c == pairChar then
      swecGo splitChar pairChar cs (!isPairOpen) wordBuffer
    else if c == splitChar then
      if isPairOpen then
        swecGo splitChar pairChar cs isPairOpen (wordBuffer ++ [c])
      else
        String.mk wordBuffer :: swecGo splitChar pairChar cs isPairOpen []
    else
      swecGo splitChar pairChar cs isPairOpen (wordBuffer ++ [c])

/-- Embedding of `Parser.splitWithEscapedCharacter(text, splitChar, pairChar)`.
The source appends one `splitChar` to `text` before the loop
(`text = text + splitChar; // parsing last`); the one-character JavaScript
strings `splitChar` and `pairChar` are modeled as `Char`. -/
def splitWithEscapedCharacter (text : String) (splitChar pairChar : Char) : List String :=
  swecGo splitChar pairChar (text.data ++ [splitChar]) false []

/-! ### Section extraction: `Parser.extractInstructionsFromSection` (src/parser.v2.js:59-87) -/

/-- Scan loop of `extractInstructionsFromSection`: walks the instruction list
from index 0 carrying the mutable `sectionStartIndex`; a line equal to the
start marker records its index (each match overwrites the previous one), a
line equal to the end marker stops the loop (`break`) with that index. The
`else if` ordering of the source is mirrored by the conditionals. -/
def sectionScan (startMark endMark : String) :
    List String → Nat → Option Nat → Option Nat × Option Nat
  | [], _, sectionStartIndex => (sectionStartIndex, none)
  | instruction :: rest, index, sectionStartIndex =>
    if instruction == startMark then
      sectionScan startMark endMark rest (index + 1) (some index)
    else if instruction == endMark then
      (sectionStartIndex, some index)
    else
      sectionScan startMark endMark rest (index + 1) sectionStartIndex

/-- Stands in for the thrown message
`해당 키워드(...)에 대한 섹션을 추출하지 못했습니다` (the two later `else if`
branches of the source are unreachable: their conditions are subsumed by the
first `if`). -/
def sectionNotFoundMsg (keyword : String) : String :=
  "section not found: " ++ keyword

/-- Embedding of `Parser.extractInstructionsFromSection(keyword, instructions)`:
scan, then `throw` when either recorded index is still `null`, otherwise
`instructions.slice(sectionStartIndex + 1, sectionEndIndex)`. -/
def extractInstructionsFromSection (keyword : String) (instructions : List String) :
    Except String (List String) :=
  match sectionScan ("[" ++ keyword ++ "]") ("[End" ++ keyword ++ "]") instructions 0 none with
  | (some s, some e) => .ok ((instructions.drop (s + 1)).take (e - (s + 1)))
  | _ => .error (sectionNotFoundMsg keyword)

/-! ### Stimulus entities and the catalog (src/parser.v2.js:148-216) -/

/-- Value of the `fontSize` field: `null` (token is the sentinel `n`),
NaN (`parseInt` failed, e.g. the token was missing) or a parsed integer. -/
inductive NumOrNull where
  | null
  | nan
  | val (i : Int)
deriving DecidableEq, Repr

/-- Value of the `fontColor` field: `null` (sentinel `n`), `undefined`
(token missing) or the token itself. -/
inductive StrOrNull where
  | null
  | undefinedVal
  | str (s : String)
deriving DecidableEq, Repr

/-- Stimulus entity, one constructor per `switch` branch of `parseStimulus`.
Each constructor stores the `stimulusType` token followed by the fields the
branch assigns; `media` covers the shared `audio` / `video` branch. -/
inductive Stimulus where
  | image (stimulusType : String) (filePath : Option String) (button : Bool)
  | text (stimulusType : String) (content : Option String)
      (fontSize : NumOrNull) (fontColor : StrOrNull)
  | textFile (stimulusType : String) (filePath : Option String)
      (fontSize : NumOrNull) (fontColor : StrOrNull)
  | media (stimulusType : String) (filePath : Option String)
deriving DecidableEq, Repr

/-- Embedding of `!!button`: `undefined` and the empty string are falsy,
every other string is truthy. -/
def jsTruthy (tok : Option String) : Bool :=
  match tok with
  | none => false
  | some s => !s.isEmpty

/-- Embedding of `fontSize === "n" ? null : parseInt(fontSize)`
(`parseInt(undefined)` is NaN). -/
def numOrNullField (tok : Option String) : NumOrNull :=
  match tok with
  | some "n" => .null
  | some s =>
    match parseIntJs s with
    | some i => .val i
    | none => .nan
  | none => .nan

/-- Embedding of `fontColor === "n" ? null : fontColor`. -/
def strOrNullField (tok : Option String) : StrOrNull :=
  match tok with
  | some "n" => .null
  | some s => .str s
  | none => .undefinedVal

/-- Stands in for the thrown message `...은 유효한 자극 유형이 아닙니다`. -/
def invalidStimulusTypeMsg (stimulusType : String) : String :=
  "invalid stimulus type: " ++ stimulusType

/-- Own property names of `Object.prototype` in Node (V8), excluding the
`__proto__` accessor, which is handled separately; all of these are
function-valued data properties, inherited and truthy when read through a
plain object. -/
def objectPrototypeMembers : List String :=
  ["constructor", "hasOwnProperty", "isPrototypeOf", "propertyIsEnumerable",
   "toLocaleString", "toString", "valueOf", "__defineGetter__",
   "__defineSetter__", "__lookupGetter__", "__lookupSetter__"]

/-- The `this.stimulus` object: a plain JavaScript object, modeled by its
insertion-ordered own string-keyed entries plus its mutable prototype slot.
`proto = none` is the initial `Object.prototype` (the constructor runs
`this.stimulus = {}`); `proto = some p` means the prototype has been
replaced by the stimulus object `p` through an assignment to `__proto__`. -/
structure StimMap where
  entries : List (String × Stimulus)
  proto : Option Stimulus
deriving DecidableEq, Repr

/-- The empty object `{}` assigned by the constructor. -/
def emptyStimMap : StimMap := { entries := [], proto := none }

/-- Own-key lookup in the entry list. -/
def getOwn (entries : List (String × Stimulus)) (key : String) : Option Stimulus :=
  match entries with
  | [] => none
  | (k, v) :: rest => if k == key then some v else getOwn rest key

/-- Own-key write in the entry list: overwrite in place when the key
exists, append otherwise. -/
def setOwn (entries : List (String × Stimulus)) (key : String) (value : Stimulus) :
    List (String × Stimulus) :=
  match entries with
  | [] => [(key, value)]
  | (k, v) :: rest =>
    if k == key then (k, value) :: rest else (k, v) :: setOwn rest key value

/-- A JavaScript value a property read on the catalog object can produce:
a stimulus object (own entry, or the prototype returned by reading
`__proto__`), the `Object.prototype` object itself (reading `__proto__` on
a fresh `{}`), an inherited `Object.prototype` function member (kept
opaque by name), or a primitive field value read off a prototype
stimulus. -/
inductive JsValue where
  | obj (s : Stimulus)
  | objectProto
  | protoFn (name : String)
  | str (s : String)
  | boolV (b : Bool)
  | intV (i : Int)
  | nanV
  | nullV
  | undefinedV
deriving DecidableEq, Repr

/-- JavaScript truthiness of the values above: objects and functions are
truthy; `undefined`, `null`, `false`, `0`, NaN and the empty string are
falsy. -/
def truthy : JsValue → Bool
  | .obj _ => true
  | .objectProto => true
  | .protoFn _ => true
  | .str s => !s.isEmpty
  | .boolV b => b
  | .intV i => i != 0
  | .nanV => false
  | .nullV => false
  | .undefinedV => false

/-- An optional-string field read as a JavaScript value. -/
def optStrToJs : Option String → JsValue
  | some s => .str s
  | none => .undefinedV

/-- A `fontSize`-like field read as a JavaScript value. -/
def numOrNullToJs : NumOrNull → JsValue
  | .null => .nullV
  | .nan => .nanV
  | .val i => .intV i

/-- A `fontColor`-like field read as a JavaScript value. -/
def strOrNullToJs : StrOrNull → JsValue
  | .null => .nullV
  | .undefinedVal => .undefinedV
  | .str s => .str s

/-- Own properties of a stimulus object literal, per `switch` branch of
`parseStimulus`. A property assigned `undefined` still exists (and reads
as `undefined`, stopping the chain walk); absent names return `none` and
the read falls through to `Object.prototype`. -/
def stimulusOwnProperty (s : Stimulus) (key : String) : Option JsValue :=
  match s with
  | .image stimulusType filePath button =>
    if key == "stimulusType" then some (.str stimulusType)
    else if key == "filePath" then some (optStrToJs filePath)
    else if key == "button" then some (.boolV button)
    else none
  | .text stimulusType content fontSize fontColor =>
    if key == "stimulusType" then some (.str stimulusType)
    else if key == "content" then some (optStrToJs content)
    else if key == "fontSize" then some (numOrNullToJs fontSize)
    else if key == "fontColor" then some (strOrNullToJs fontColor)
    else none
  | .textFile stimulusType filePath fontSize fontColor =>
    if key == "stimulusType" then some (.str stimulusType)
    else if key == "filePath" then some (optStrToJs filePath)
    else if key == "fontSize" then some (numOrNullToJs fontSize)
    else if key == "fontColor" then some (strOrNullToJs fontColor)
    else none
  | .media stimulusType filePath =>
    if key == "stimulusType" then some (.str stimulusType)
    else if key == "filePath" then some (optStrToJs filePath)
    else none

/-- A read that reaches `Object.prototype`: its function members are
returned (truthy); any other name is `undefined`. -/
def objectProtoMember (key : String) : JsValue :=
  if objectPrototypeMembers.contains key then .protoFn key else .undefinedV

/-- JavaScript property read `this.stimulus[key]`: own entry first, then
the prototype chain. The `__proto__` accessor (inherited from
`Object.prototype`; no object involved ever owns a `__proto__` key)
returns the current prototype; a prototype stimulus contributes its own
field values; `Object.prototype` contributes its function members;
everything else is `undefined`. -/
def getKey (m : StimMap) (key : String) : JsValue :=
  match getOwn m.entries key with
  | some v => .obj v
  | none =>
    if key == "__proto__" then
      match m.proto with
      | some p => .obj p
      | none => .objectProto
    else
      match m.proto with
      | some p =>
        match stimulusOwnProperty p key with
        | some v => v
        | none => objectProtoMember key
      | none => objectProtoMember key

/-- JavaScript property write `this.stimulus[key] = value`: the key
`__proto__` hits the inherited accessor, which replaces the prototype of
the object (the assigned stimulus is always an object, so the set takes
effect) and creates NO own key; every other key is an ordinary own write
(inherited data properties such as `constructor` do not block
shadowing). -/
def setKey (m : StimMap) (key : String) (value : Stimulus) : StimMap :=
  if key == "__proto__" then { m with proto := some value }
  else { m with entries := setOwn m.entries key value }

/-- One iteration of the `parseStimulus` loop (src/parser.v2.js:164-215):
tokenize the line with `splitWithEscapedCharacter(line, " ", QUOTE)`,
destructure `stimulusType` and `identifier`, `left = tokens.slice(2)`, then
`switch (stimulusType)`. Returns the catalog key together with the entity.
The `audio` / `video` branch destructures `let [filePath] =
splittedStimulusInstruction` from the FULL token list, so its `filePath` is
token 0 (the type tag), not a token of `left`. A key of `undefined` is
coerced to the string `undefined` by the JavaScript property write. -/
def parseStimulusLine (instruction : String) : Except String (String × Stimulus) :=
  let tks := splitWithEscapedCharacter instruction ' ' '"'
  let identifier := tks[1]?
  let left := tks.drop 2
  let key := match identifier with
    | some s => s
    | none => "undefined"
  match tks[0]? with
  | some "image" => .ok (key, .image "image" left[0]? (jsTruthy left[1]?))
  | some "text" =>
      .ok (key, .text "text" left[0]? (numOrNullField left[1]?) (strOrNullField left[2]?))
  | some "text_file" =>
      .ok (key, .textFile "text_file" left[0]? (numOrNullField left[1]?) (strOrNullField left[2]?))
  | some "audio" => .ok (key, .media "audio" tks[0]?)
  | some "video" => .ok (key, .media "video" tks[0]?)
  | some other => .error (invalidStimulusTypeMsg other)
  | none => .error (invalidStimulusTypeMsg "undefined")

/-- The `parseStimulus` loop over the stimulus-section lines, threading the
`this.stimulus` object; the first thrown error aborts the run. -/
def parseStimulusFold : List String → StimMap → Except String StimMap
  | [], m => .ok m
  | line :: rest, m =>
    match parseStimulusLine line with
    | .error e => .error e
    | .ok (key, stimulus) => parseStimulusFold rest (setKey m key stimulus)

/-! ### Sequence steps (src/parser.v2.js:220-312) -/

/-- Result of the unary `+` conversion: NaN or an integer. -/
inductive JsNum where
  | nan
  | val (i : Int)
deriving DecidableEq, Repr

/-- Value of a number-or-sentinel sequence field: the sentinel token kept
literally (`"inf"` or `"n"`), NaN, or a converted integer. -/
inductive SeqNumField where
  | sentinel (s : String)
  | nan
  | val (i : Int)
deriving DecidableEq, Repr

/-- Value of the `choices` field: the sentinel string `"n"` kept literally,
or the values the identifier lookups produced, in list order (own catalog
entries; or, for identifiers without an own entry, whatever truthy value
the prototype chain yielded). -/
inductive ChoicesField where
  | sentinel
  | resolved (values : List JsValue)
deriving DecidableEq, Repr

/-- Embedding of `+token` when the token may be `undefined`
(`+undefined` is NaN). -/
def jsPlusOpt (tok : Option String) : JsNum :=
  match tok with
  | none => .nan
  | some s =>
    match jsToNumber s with
    | some i => .val i
    | none => .nan

/-- Embedding of `tok === "inf" || tok === "n" ? tok : +tok` (an
`undefined` token matches neither sentinel and converts to NaN). Some
fields of the source compare the two sentinels in the opposite order,
which does not change the value. -/
def seqNumField (tok : Option String) : SeqNumField :=
  match tok with
  | none => .nan
  | some s => if s == "inf" || s == "n" then .sentinel s else
      match jsToNumber s with
      | some i => .val i
      | none => .nan

/-- One decoded sequence step, fields in source order; `feedback1` and
`feedback2` use an outer `Option` for presence of the property and an inner
`Option String` for its (possibly undefined) value. -/
structure Step where
  onSetTime : JsNum
  identifier : Option String
  stimulusDuration : SeqNumField
  choices : ChoicesField
  choiceDuration : SeqNumField
  answer : Option String
  choiceOnsetRelativeToSim : SeqNumField
  reactionTime : SeqNumField
  feedbackType : Option String
  feedbackDuration : SeqNumField
  test : Option String
  feedback1 : Option (Option String) := none
  feedback2 : Option (Option String) := none
deriving DecidableEq, Repr

/-- Embedding of the thrown message `Stimulus Identifier ... is not valid`. -/
def unknownStimulusIdMsg (stimulusIdentifier : String) : String :=
  "Stimulus Identifier " ++ stimulusIdentifier ++ " is not valid"

/-- Embedding of `Parser.getStimulusByIdentifier` (src/parser.v2.js:127-135):
`const found = this.stimulus[stimulusIdentifier]` is a full property read
including the prototype chain, and `if (found)` is a truthiness test — an
inherited `Object.prototype` member (or a truthy prototype-stimulus field)
is returned as if it were a stimulus, and only a falsy read throws. -/
def getStimulusByIdentifier (m : StimMap) (stimulusIdentifier : String) :
    Except String JsValue :=
  let found := getKey m stimulusIdentifier
  if truthy found then .ok found
  else .error (unknownStimulusIdMsg stimulusIdentifier)

/-- The `choices.split(",").map(identifier => this.getStimulusByIdentifier(identifier))`
pipeline: resolve in list order, aborting at the first falsy lookup. -/
def resolveList (m : StimMap) : List String → Except String (List JsValue)
  | [] => .ok []
  | identifier :: rest =>
    match getStimulusByIdentifier m identifier with
    | .error e => .error e
    | .ok value =>
      match resolveList m rest with
      | .error e => .error e
      | .ok values => .ok (value :: values)

/-- Stands in for the TypeError raised by `undefined.split(",")` when the
`choices` token is missing. -/
def choicesTypeErrorMsg : String :=
  "TypeError: cannot read split of undefined"

/-- Embedding of
`choices === "n" ? choices : choices.split(",").map(... lookup ...)`. -/
def resolveChoices (m : StimMap) (tok : Option String) : Except String ChoicesField :=
  match tok with
  | none => .error choicesTypeErrorMsg
  | some s =>
    if s == "n" then .ok .sentinel
    else
      match resolveList m (jsSplit s ',') with
      | .error e => .error e
      | .ok values => .ok (.resolved values)

/-- Stands in for the thrown message `...은 유효한 Feedback Type이 아닙니다.`. -/
def invalidFeedbackTypeMsg (feedbackType : String) : String :=
  "invalid feedback type: " ++ feedbackType

/-- One iteration of the inner `parseSequence` loop (src/parser.v2.js:247-309):
plain `split(" ")`, positional destructuring into the 13 fields, field
conversion (the `choices` lookup is the only conversion that can throw, and
the object literal is evaluated before the feedback `switch`), then the
fallthrough `switch (feedbackType)`: the `a` case assigns `feedback1` and
falls through into the `tf` case which assigns `feedback2`; `n` and `c`
assign neither; anything else throws. The second `case ALWAYS` label of the
source before `NONE` is unreachable (duplicate of the first). -/
def parseSequenceLine (m : StimMap) (instruction : String) : Except String Step :=
  let tks := jsSplit instruction ' '
  match resolveChoices m tks[3]? with
  | .error e => .error e
  | .ok choicesVal =>
    let base : Step := {
      onSetTime := jsPlusOpt tks[0]?
      identifier := tks[1]?
      stimulusDuration := seqNumField tks[2]?
      choices := choicesVal
      choiceDuration := seqNumField tks[4]?
      answer := tks[5]?
      choiceOnsetRelativeToSim := seqNumField tks[6]?
      reactionTime := seqNumField tks[7]?
      feedbackType := tks[8]?
      feedbackDuration := seqNumField tks[9]?
      test := tks[12]? }
    match tks[8]? with
    | some "a" => .ok { base with feedback1 := some tks[10]?, feedback2 := some tks[11]? }
    | some "tf" => .ok { base with feedback2 := some tks[11]? }
    | some "n" => .ok base
    | some "c" => .ok base
    | some other => .error (invalidFeedbackTypeMsg other)
    | none => .error (invalidFeedbackTypeMsg "undefined")

/-- The inner `parseSequence` loop over one section, appending steps in
source order. -/
def parseSequenceList (m : StimMap) : List String → Except String (List Step)
  | [] => .ok []
  | instruction :: rest =>
    match parseSequenceLine m instruction with
    | .error e => .error e
    | .ok step =>
      match parseSequenceList m rest with
      | .error e => .error e
      | .ok steps => .ok (step :: steps)

/-! ### Compiler: constructor + `execute` (src/parser.v2.js:43-53, 313-318) -/

/-- Embedding of the constructor:
`rawInstructions.split("\n").map(instruction => instruction.trim())`. -/
def mkInstructions (rawInstructions : String) : List String :=
  (jsSplit rawInstructions '\n').map (fun instruction => jsTrim instruction)

/-- The output document: `this.stimulus` plus the three per-section step
lists of `this.sequences` (`pre_sequence`, `main_sequence`,
`post_sequence`). -/
structure ParseResult where
  stimulus : StimMap
  preSequence : List Step
  mainSequence : List Step
  postSequence : List Step
deriving DecidableEq, Repr

/-- Embedding of `new Parser(text).execute()`: `splitSection` (four section
extractions in source order), `parseStimulus`, then `parseSequence` over
`pre_sequence`, `main_sequence`, `post_sequence`; the first thrown error
aborts the run. Every piece of instance state is created by the constructor
from `rawInstructions` alone. -/
def execute (rawInstructions : String) : Except String ParseResult := do
  let instructions := mkInstructions rawInstructions
  let stimulusInstructions ← extractInstructionsFromSection "Descriptions" instructions
  let preSequenceInstructions ← extractInstructionsFromSection "PreSeq" instructions
  let mainSequenceInstructions ← extractInstructionsFromSection "MainSeq" instructions
  let postSequenceInstructions ← extractInstructionsFromSection "PostSeq" instructions
  let stimulus ← parseStimulusFold stimulusInstructions emptyStimMap
  let preSequence ← parseSequenceList stimulus preSequenceInstructions
  let mainSequence ← parseSequenceList stimulus mainSequenceInstructions
  let postSequence ← parseSequenceList stimulus postSequenceInstructions
  return { stimulus, preSequence, mainSequence, postSequence }

/-! ### Helper lemmas about the tokenizer -/

theorem data_mk (l : List Char) : (String.mk l).data = l := rfl

/-- Every character ever pushed onto the word buffer differs from the quote
character, so no emitted token contains it. -/
theorem swecGo_tokens_quote_free (splitChar pairChar : Char) :
    ∀ (cs : List Char) (isPairOpen : Bool) (wordBuffer : List Char),
      wordBuffer.all (fun c => !(c == pairChar)) = true →
      (swecGo splitChar pairChar cs isPairOpen wordBuffer).all
        (fun tok => tok.data.all (fun c => !(c == pairChar))) = true := by
  intro cs
  induction cs with
  | nil => intro o buf _; simp [swecGo]
  | cons c cs ih =>
    intro o buf hbuf
    simp only [swecGo]
    cases hq : (c == pairChar) with
    | true => simpa using ih (!o) buf hbuf
    | false =>
      cases hd : (c == splitChar) with
      | true =>
        cases o with
        | true =>
          simp only [Bool.false_eq_true, if_false, if_true]
          refine ih true (buf ++ [c]) ?_
          simp [List.all_append, hbuf, hq]
        | false =>
          simp only [Bool.false_eq_true, if_false, if_true, List.all_cons, data_mk,
            Bool.and_eq_true]
          exact And.intro hbuf (ih false [] (by simp))
      | false =>
        simp only [Bool.false_eq_true, if_false]
        refine ih o (buf ++ [c]) ?_
        simp [List.all_append, hbuf, hq]

/-- Auxiliary for relating the tokenizer to plain splitting: prepend a
buffer to the first word, pack everything into strings. -/
def mapFirstAppend (wordBuffer : List Char) : List (List Char) → List String
  | [] => []
  | w :: ws => String.mk (wordBuffer ++ w) :: ws.map (fun v => String.mk v)

theorem mapFirstAppend_nil (L : List (List Char)) :
    mapFirstAppend [] L = L.map (fun v => String.mk v) := by
  cases L <;> simp [mapFirstAppend]

theorem mapFirstAppend_cons (wordBuffer w : List Char) (ws : List (List Char)) :
    mapFirstAppend wordBuffer (w :: ws) =
      String.mk (wordBuffer ++ w) :: ws.map (fun v => String.mk v) := rfl

theorem jsSplitList_ne_nil (d : Char) (cs : List Char) : jsSplitList d cs ≠ [] := by
  cases cs with
  | nil => simp [jsSplitList]
  | cons c cs =>
    simp only [jsSplitList]
    split
    · simp
    · split <;> simp

/-- Core refinement lemma: on input free of the quote character the
tokenizer loop (with its appended trailing delimiter and a closed toggle)
produces exactly the plain delimiter split, with the pending buffer glued
onto the first token. -/
theorem swecGo_no_quote (splitChar pairChar : Char) (hqd : pairChar ≠ splitChar) :
    ∀ (cs : List Char) (wordBuffer : List Char),
      (∀ c ∈ cs, c ≠ pairChar) →
      swecGo splitChar pairChar (cs ++ [splitChar]) false wordBuffer =
        mapFirstAppend wordBuffer (jsSplitList splitChar cs) := by
  intro cs
  induction cs with
  | nil =>
    intro buf _
    have hq : (splitChar == pairChar) = false := by
      simp only [beq_eq_false_iff_ne]
      exact fun h => hqd h.symm
    simp [swecGo, jsSplitList, mapFirstAppend, hq]
  | cons c cs ih =>
    intro buf hfree
    have hc : c ≠ pairChar := hfree c (List.mem_cons_self c cs)
    have hcq : (c == pairChar) = false := by simpa [beq_eq_false_iff_ne] using hc
    have hrest : ∀ x ∈ cs, x ≠ pairChar := fun x hx => hfree x (List.mem_cons_of_mem c hx)
    simp only [List.cons_append, swecGo, hcq, Bool.false_eq_true, if_false]
    cases hcd : (c == splitChar) with
    | true =>
      simp only [if_true, jsSplitList, hcd, List.append_eq, ih [] hrest,
        mapFirstAppend_cons, mapFirstAppend_nil, List.append_nil]
    | false =>
      simp only [Bool.false_eq_true, if_false, List.append_eq, ih (buf ++ [c]) hrest,
        jsSplitList, hcd]
      obtain ⟨w, ws, hws⟩ : ∃ w ws, jsSplitList splitChar cs = w :: ws := by
        cases h : jsSplitList splitChar cs with
        | nil => exact absurd h (jsSplitList_ne_nil splitChar cs)
        | cons w ws => exact ⟨w, ws, rfl⟩
      simp [hws, mapFirstAppend_cons, List.append_assoc]

/-! ### C1 -/

/-- Claim C1 (status: code_bug). The source comment documents
`audio description : audio <identifier> <file_path>` and the older version
in `src/unnamed/part_000` reads the third token, but the canonical
`parser.v2` destructures `let [filePath] = splittedStimulusInstruction`
from the full token list: on the line `audio I1 snd/beep.mp3` the decoded
`filePath` is token 0 (`audio`), not the third token `snd/beep.mp3`. -/
theorem c1_audio_filepath_is_token_zero :
    parseStimulusLine "audio I1 snd/beep.mp3" =
      .ok ("I1", Stimulus.media "audio" (some "audio")) ∧
    (splitWithEscapedCharacter "audio I1 snd/beep.mp3" ' ' '"')[2]? = some "snd/beep.mp3" ∧
    (some "audio" : Option String) ≠ some "snd/beep.mp3" := by
  decide

/-! ### C6 -/

/-- Claim C6 (status: confirmed). The tokenizer appends one trailing
delimiter so the final token is flushed (second example), never emits the
quote character into any token (first conjunct), and keeps delimiter
characters literal while the quote toggle is open (first example, whose
middle token retains its inner space). -/
theorem c6_tokenizer_properties :
    (∀ (text : String) (splitChar pairChar : Char),
      ((splitWithEscapedCharacter text splitChar pairChar).all
        (fun tok => tok.data.all (fun c => !(c == pairChar)))) = true) ∧
    splitWithEscapedCharacter "a \"b c\" d" ' ' '"' = ["a", "b c", "d"] ∧
    splitWithEscapedCharacter "x" ' ' '"' = ["x"] := by
  refine ⟨?_, by decide, by decide⟩
  intro t d q
  exact swecGo_tokens_quote_free d q (t.data ++ [d]) false [] (by simp)

/-! ### C10 -/

/-- Claim C10 (status: confirmed). On input containing no occurrence of the
quote character (the quote being a character distinct from the delimiter,
as in every call site), the quote-aware tokenizer agrees with the plain
JavaScript split used for sequence lines; the second conjunct is the
instantiation to the characters the program uses (space delimiter, double
quote). -/
theorem c10_quote_free_agreement :
    (∀ (text : String) (splitChar pairChar : Char), pairChar ≠ splitChar →
      (∀ c ∈ text.data, c ≠ pairChar) →
      splitWithEscapedCharacter text splitChar pairChar = jsSplit text splitChar) ∧
    (∀ text : String, (∀ c ∈ text.data, c ≠ '"') →
      splitWithEscapedCharacter text ' ' '"' = jsSplit text ' ') := by
  have main : ∀ (text : String) (splitChar pairChar : Char), pairChar ≠ splitChar →
      (∀ c ∈ text.data, c ≠ pairChar) →
      splitWithEscapedCharacter text splitChar pairChar = jsSplit text splitChar := by
    intro t d q hqd hfree
    unfold splitWithEscapedCharacter jsSplit
    rw [swecGo_no_quote d q hqd t.data [] hfree, mapFirstAppend_nil]
  exact ⟨main, fun t hfree => main t ' ' '"' (by decide) hfree⟩

/-- Witness for C10 at a concrete quote-free line. -/
theorem c10_quote_free_agreement_witness :
    splitWithEscapedCharacter "0 s1 inf I1" ' ' '"' = jsSplit "0 s1 inf I1" ' ' :=
  c10_quote_free_agreement.2 "0 s1 inf I1" (by decide)

/-! ### Helper lemmas about section extraction -/

/-- Index of the first element satisfying the predicate. -/
def firstIdx (p : String → Bool) : List String → Option Nat
  | [] => none
  | x :: rest => if p x then some 0 else (firstIdx p rest).map (· + 1)

/-- Index of the last element satisfying the predicate. -/
def lastIdx (p : String → Bool) : List String → Option Nat
  | [] => none
  | x :: rest =>
    match lastIdx p rest with
    | some j => some (j + 1)
    | none => if p x then some 0 else none

/-- Left-biased choice between two optional indices. -/
def orElseO : Option Nat → Option Nat → Option Nat
  | some j, _ => some j
  | none, st => st

/-- The start marker and the end marker of a keyword are never equal (their
lengths differ by three). -/
theorem startMark_ne_endMark (keyword : String) :
    ("[" ++ keyword ++ "]" : String) ≠ "[End" ++ keyword ++ "]" := by
  intro h
  have h2 := congrArg String.length h
  have e1 : "[".length = 1 := rfl
  have e2 : "]".length = 1 := rfl
  have e3 : "[End".length = 4 := rfl
  simp [String.length_append, e1, e2, e3] at h2

/-- Characterization of the scan loop: the end boundary is the index of the
first end-marker line in the whole list, and the recorded start boundary is
the index of the last start-marker line strictly before it (falling back to
the incoming accumulator), independent of any start marker after the end
boundary. -/
theorem sectionScan_spec (startMark endMark : String) (hne : startMark ≠ endMark) :
    ∀ (l : List String) (i : Nat) (st : Option Nat),
      sectionScan startMark endMark l i st =
        match firstIdx (fun x => x == endMark) l with
        | none => (orElseO ((lastIdx (fun x => x == startMark) l).map (· + i)) st, none)
        | some e =>
          (orElseO ((lastIdx (fun x => x == startMark) (l.take e)).map (· + i)) st,
            some (e + i)) := by
  intro l
  induction l with
  | nil => intro i st; simp [sectionScan, firstIdx, lastIdx, orElseO]
  | cons x rest ih =>
    intro i st
    cases hsm : (x == startMark) with
    | true =>
      have hxe : (x == endMark) = false := by
        have hx : x = startMark := by simpa [beq_iff_eq] using hsm
        simp [beq_eq_false_iff_ne, hx, hne]
      simp only [sectionScan, hsm, if_true, hxe, Bool.false_eq_true, if_false]
      rw [ih (i + 1) (some i)]
      simp only [firstIdx, hxe, Bool.false_eq_true, if_false]
      cases hf : firstIdx (fun x => x == endMark) rest with
      | none =>
        cases hl : lastIdx (fun x => x == startMark) rest with
        | none => simp [lastIdx, hsm, hl, orElseO]
        | some j =>
          simp [lastIdx, hsm, hl, orElseO, Prod.ext_iff]
          omega
      | some e =>
        cases hl : lastIdx (fun x => x == startMark) (rest.take e) with
        | none =>
          simp [lastIdx, hsm, hl, orElseO, List.take_succ_cons, Prod.ext_iff]
          omega
        | some j =>
          simp [lastIdx, hsm, hl, orElseO, List.take_succ_cons, Prod.ext_iff]
          omega
    | false =>
      cases hem : (x == endMark) with
      | true =>
        simp only [sectionScan, hsm, Bool.false_eq_true, if_false, hem, if_true]
        simp [firstIdx, hem, lastIdx, orElseO]
      | false =>
        simp only [sectionScan, hsm, Bool.false_eq_true, if_false, hem]
        rw [ih (i + 1) st]
        simp only [firstIdx, hem, Bool.false_eq_true, if_false]
        cases hf : firstIdx (fun x => x == endMark) rest with
        | none =>
          cases hl : lastIdx (fun x => x == startMark) rest with
          | none => simp [lastIdx, hsm, hl, orElseO]
          | some j =>
            simp [lastIdx, hsm, hl, orElseO, Prod.ext_iff]
            omega
        | some e =>
          cases hl : lastIdx (fun x => x == startMark) (rest.take e) with
          | none =>
            simp [lastIdx, hsm, hl, orElseO, List.take_succ_cons]
            omega
          | some j =>
            simp [lastIdx, hsm, hl, orElseO, List.take_succ_cons, Prod.ext_iff]
            omega

/-- Reference description of what `extractInstructionsFromSection` computes:
end boundary = first `[End<keyword>]` line in the whole list (the scan stops
there even when no start marker precedes it); start boundary = last
`[keyword]` line strictly before the end boundary; result = the lines
strictly between the two boundaries; a missing boundary is the fatal
section-not-found error. -/
def extractSpecAmended (keyword : String) (instructions : List String) :
    Except String (List String) :=
  match firstIdx (fun x => x == "[End" ++ keyword ++ "]") instructions with
  | none => .error (sectionNotFoundMsg keyword)
  | some e =>
    match lastIdx (fun x => x == "[" ++ keyword ++ "]") (instructions.take e) with
    | none => .error (sectionNotFoundMsg keyword)
    | some s => .ok ((instructions.drop (s + 1)).take (e - (s + 1)))

/-- The extraction routine of the source satisfies the reference
description `extractSpecAmended` on every input. -/
theorem extract_eq_extractSpecAmended (keyword : String) (instructions : List String) :
    extractInstructionsFromSection keyword instructions =
      extractSpecAmended keyword instructions := by
  unfold extractInstructionsFromSection extractSpecAmended
  rw [sectionScan_spec _ _ (startMark_ne_endMark keyword) instructions 0 none]
  cases hf : firstIdx (fun x => x == "[End" ++ keyword ++ "]") instructions with
  | none =>
    cases hl : lastIdx (fun x => x == "[" ++ keyword ++ "]") instructions with
    | none => simp [hf, hl, orElseO]
    | some j => simp [hf, hl, orElseO]
  | some e =>
    cases hl : lastIdx (fun x => x == "[" ++ keyword ++ "]") (instructions.take e) with
    | none => simp [hf, hl, orElseO]
    | some s => simp [hf, hl, orElseO]

theorem firstIdx_eq_none (p : String → Bool) (l : List String)
    (h : ∀ x ∈ l, p x = false) : firstIdx p l = none := by
  induction l with
  | nil => rfl
  | cons x rest ih =>
    have hx := h x (List.mem_cons_self x rest)
    simp [firstIdx, hx, ih (fun y hy => h y (List.mem_cons_of_mem x hy))]

theorem lastIdx_eq_none (p : String → Bool) (l : List String)
    (h : ∀ x ∈ l, p x = false) : lastIdx p l = none := by
  induction l with
  | nil => rfl
  | cons x rest ih =>
    have hx := h x (List.mem_cons_self x rest)
    simp [lastIdx, hx, ih (fun y hy => h y (List.mem_cons_of_mem x hy))]

/-! ### C3 -/

/-- Reference description of what claim C3 states: start boundary = FIRST
`[keyword]` line; end boundary = first `[End<keyword>]` line encountered
after that start marker; result = the lines strictly between them. -/
def extractSpecClaimed (keyword : String) (instructions : List String) :
    Except String (List String) :=
  match firstIdx (fun x => x == "[" ++ keyword ++ "]") instructions with
  | none => .error (sectionNotFoundMsg keyword)
  | some s =>
    match firstIdx (fun x => x == "[End" ++ keyword ++ "]") (instructions.drop (s + 1)) with
    | none => .error (sectionNotFoundMsg keyword)
    | some j => .ok ((instructions.drop (s + 1)).take j)

/-- Counterexample to claim C3 as stated. First input: with a repeated
start marker the code returns the lines after the LAST `[K]` before the end
marker (`["b"]`), not the lines after the first one (`["a", "[K]", "b"]`).
Second input: with an end marker before any start marker the code stops at
that first end marker and fails, instead of using the first end marker
after a start marker has been seen (which would return `["x"]`). -/
theorem c3_boundaries_counterexample :
    extractInstructionsFromSection "K" ["[K]", "a", "[K]", "b", "[EndK]"] ≠
      extractSpecClaimed "K" ["[K]", "a", "[K]", "b", "[EndK]"] ∧
    extractInstructionsFromSection "K" ["[EndK]", "[K]", "x", "[EndK]"] ≠
      extractSpecClaimed "K" ["[EndK]", "[K]", "x", "[EndK]"] := by
  decide

/-- Claim C3 (status: corrected). Amended statement: for every instruction
list and keyword, the end boundary is the first occurrence of
`[End<keyword>]` in the list (the scan stops there even when no start
marker has been seen yet), the start boundary is the last index strictly
before the end boundary whose line equals `[keyword]`, extraction returns
exactly the lines strictly between those two boundaries (both markers
excluded), and it fails when either boundary does not exist. -/
theorem c3_boundaries_amended (keyword : String) (instructions : List String) :
    extractInstructionsFromSection keyword instructions =
      extractSpecAmended keyword instructions :=
  extract_eq_extractSpecAmended keyword instructions

/-! ### C5 -/

/-- Claim C5 (status: confirmed). When either the start marker `[keyword]`
or the end marker `[End<keyword>]` occurs nowhere in the instruction list,
section extraction fails with the section-not-found error instead of
returning any line range. -/
theorem c5_missing_marker_fails (keyword : String) (instructions : List String)
    (h : (∀ x ∈ instructions, x ≠ "[" ++ keyword ++ "]") ∨
         (∀ x ∈ instructions, x ≠ "[End" ++ keyword ++ "]")) :
    extractInstructionsFromSection keyword instructions =
      .error (sectionNotFoundMsg keyword) := by
  rw [extract_eq_extractSpecAmended]
  unfold extractSpecAmended
  rcases h with hstart | hend
  · cases hf : firstIdx (fun x => x == "[End" ++ keyword ++ "]") instructions with
    | none => rfl
    | some e =>
      have hnone : lastIdx (fun x => x == "[" ++ keyword ++ "]") (instructions.take e) =
          none := by
        refine lastIdx_eq_none _ _ (fun x hx => ?_)
        have hmem : x ∈ instructions := List.take_subset e instructions hx
        simp [beq_eq_false_iff_ne, hstart x hmem]
      simp [hnone]
  · have hnone : firstIdx (fun x => x == "[End" ++ keyword ++ "]") instructions = none := by
      refine firstIdx_eq_none _ _ (fun x hx => ?_)
      simp [beq_eq_false_iff_ne, hend x hx]
    rw [hnone]

/-- Witness for C5: the spec test vector, a section with a start marker
but no end marker. -/
theorem c5_missing_marker_fails_witness :
    extractInstructionsFromSection "PreSeq" ["[PreSeq]", "x"] =
      .error (sectionNotFoundMsg "PreSeq") :=
  c5_missing_marker_fails "PreSeq" ["[PreSeq]", "x"] (Or.inr (by decide))

/-! ### Helper lemmas about choices resolution -/

/-- A successful resolution pairs every identifier with the (truthy) value
its property read produced, in list order. -/
theorem resolveList_ok_forall₂ (m : StimMap) :
    ∀ (ids : List String) (vals : List JsValue),
      resolveList m ids = .ok vals →
      List.Forall₂ (fun id v => getKey m id = v ∧ truthy v = true) ids vals := by
  intro ids
  induction ids with
  | nil =>
    intro vals h
    simp only [resolveList] at h
    injection h with h
    subst h
    exact List.Forall₂.nil
  | cons id rest ih =>
    intro vals h
    simp only [resolveList, getStimulusByIdentifier] at h
    split at h
    · cases h
    · rename_i value hteq
      have hvt : truthy (getKey m id) = true ∧ getKey m id = value := by
        by_cases ht : truthy (getKey m id) = true
        · rw [if_pos ht] at hteq
          injection hteq with hteq
          exact ⟨ht, hteq⟩
        · rw [if_neg ht] at hteq
          cases hteq
      cases hr : resolveList m rest with
      | error e => rw [hr] at h; cases h
      | ok l =>
        rw [hr] at h
        injection h with h
        subst h
        exact List.Forall₂.cons ⟨hvt.2, hvt.2 ▸ hvt.1⟩ (ih l hr)

/-- When some identifier of the list reads as a falsy value (in particular
an ordinary identifier absent from the catalog), resolution fails with the
unknown-identifier error for the first such identifier. -/
theorem resolveList_error_of_falsy (m : StimMap) :
    ∀ ids : List String, (∃ id ∈ ids, truthy (getKey m id) = false) →
      ∃ badId, truthy (getKey m badId) = false ∧
        resolveList m ids = .error (unknownStimulusIdMsg badId) := by
  intro ids
  induction ids with
  | nil => rintro ⟨id, hmem, _⟩; cases hmem
  | cons id rest ih =>
    rintro ⟨bad, hmem, hbad⟩
    cases ht : truthy (getKey m id) with
    | false =>
      exact ⟨id, ht, by simp [resolveList, getStimulusByIdentifier, ht]⟩
    | true =>
      have hrest : ∃ b ∈ rest, truthy (getKey m b) = false := by
        rcases List.mem_cons.mp hmem with rfl | hr
        · rw [ht] at hbad; cases hbad
        · exact ⟨bad, hr, hbad⟩
      obtain ⟨badId, hbfalse, herr⟩ := ih hrest
      exact ⟨badId, hbfalse, by simp [resolveList, getStimulusByIdentifier, ht, herr]⟩

/-! ### C2 -/

/-- Claim C2 (status: confirmed). For every sequence line that decodes
successfully, feedback type `a` attaches both `feedback1` and `feedback2`
(from tokens 11 and 12, zero-based indices 10 and 11), feedback type `tf`
attaches only `feedback2`, and feedback types `n` and `c` attach neither. -/
theorem c2_feedback_fields (m : StimMap) (line : String) (st : Step)
    (h : parseSequenceLine m line = .ok st) :
    ((jsSplit line ' ')[8]? = some "a" →
        st.feedback1 = some (jsSplit line ' ')[10]? ∧
        st.feedback2 = some (jsSplit line ' ')[11]?) ∧
    ((jsSplit line ' ')[8]? = some "tf" →
        st.feedback1 = none ∧ st.feedback2 = some (jsSplit line ' ')[11]?) ∧
    (((jsSplit line ' ')[8]? = some "n" ∨ (jsSplit line ' ')[8]? = some "c") →
        st.feedback1 = none ∧ st.feedback2 = none) := by
  simp only [parseSequenceLine] at h
  split at h
  · cases h
  · split at h
    · rename_i heq
      injection h with h
      subst h
      refine ⟨fun _ => by simp, fun h8 => ?_, fun h8 => ?_⟩
      · rw [heq] at h8; exact absurd h8 (by decide)
      · rcases h8 with h8 | h8 <;> (rw [heq] at h8; exact absurd h8 (by decide))
    · rename_i heq
      injection h with h
      subst h
      refine ⟨fun h8 => ?_, fun _ => by simp, fun h8 => ?_⟩
      · rw [heq] at h8; exact absurd h8 (by decide)
      · rcases h8 with h8 | h8 <;> (rw [heq] at h8; exact absurd h8 (by decide))
    · rename_i heq
      injection h with h
      subst h
      refine ⟨fun h8 => ?_, fun h8 => ?_, fun _ => by simp⟩
      · rw [heq] at h8; exact absurd h8 (by decide)
      · rw [heq] at h8; exact absurd h8 (by decide)
    · rename_i heq
      injection h with h
      subst h
      refine ⟨fun h8 => ?_, fun h8 => ?_, fun _ => by simp⟩
      · rw [heq] at h8; exact absurd h8 (by decide)
      · rw [heq] at h8; exact absurd h8 (by decide)
    · cases h
    · cases h

/-- Sample sequence line for the C2 witness (feedback type `a`). -/
def c2SampleLine : String := "0 s1 inf n inf n 0 0 a n F1 F2 y"

/-- Step decoded from `c2SampleLine` against the empty catalog. -/
def c2SampleStep : Step :=
  { onSetTime := .val 0, identifier := some "s1", stimulusDuration := .sentinel "inf",
    choices := .sentinel, choiceDuration := .sentinel "inf", answer := some "n",
    choiceOnsetRelativeToSim := .val 0, reactionTime := .val 0,
    feedbackType := some "a", feedbackDuration := .sentinel "n", test := some "y",
    feedback1 := some (some "F1"), feedback2 := some (some "F2") }

/-- Witness for C2 at a concrete feedback-type-`a` line. -/
theorem c2_feedback_fields_witness :
    c2SampleStep.feedback1 = some ((jsSplit c2SampleLine ' ')[10]?) ∧
    c2SampleStep.feedback2 = some ((jsSplit c2SampleLine ' ')[11]?) :=
  (c2_feedback_fields emptyStimMap c2SampleLine c2SampleStep (by decide)).1 (by decide)

/-! ### C4 -/

/-- Counterexample to claim C4 as stated. Against the EMPTY catalog, the
choices token `constructor` names an identifier clearly absent from the
catalog, yet decoding does not fail: the property read finds the truthy
inherited `Object.prototype.constructor`, so the step decodes successfully
and silently embeds that inherited member as the choice. -/
theorem c4_choices_counterexample :
    parseSequenceLine emptyStimMap "0 s1 inf constructor inf n 0 0 n n n n y" =
      .ok { onSetTime := .val 0, identifier := some "s1",
            stimulusDuration := .sentinel "inf",
            choices := .resolved [.protoFn "constructor"],
            choiceDuration := .sentinel "inf", answer := some "n",
            choiceOnsetRelativeToSim := .val 0, reactionTime := .val 0,
            feedbackType := some "n", feedbackDuration := .sentinel "n",
            test := some "y" } ∧
    getOwn emptyStimMap.entries "constructor" = none := by
  decide

/-- Claim C4 (status: corrected). Amended statement: each comma-separated
identifier is looked up with the JavaScript property read on the catalog
object (own entries first, then the prototype chain), and the step embeds
the looked-up values in list order — an identifier without an own entry
that reads as a truthy inherited value (an `Object.prototype` member such
as `constructor` or `toString`, the `__proto__` accessor, or a truthy
field of a prototype stimulus) is silently substituted; decoding fails
with the unknown-stimulus-identifier error exactly when some identifier
reads as a falsy value (in particular an ordinary identifier absent from
the catalog). -/
theorem c4_choices_resolution_amended :
    (∀ (m : StimMap) (line : String) (st : Step) (tok : String),
        parseSequenceLine m line = .ok st →
        (jsSplit line ' ')[3]? = some tok → tok ≠ "n" →
        ∃ vals, st.choices = .resolved vals ∧
          List.Forall₂ (fun id v => getKey m id = v ∧ truthy v = true)
            (jsSplit tok ',') vals) ∧
    (∀ (m : StimMap) (line : String) (tok : String),
        (jsSplit line ' ')[3]? = some tok → tok ≠ "n" →
        (∃ id ∈ jsSplit tok ',', truthy (getKey m id) = false) →
        ∃ badId, truthy (getKey m badId) = false ∧
          parseSequenceLine m line = .error (unknownStimulusIdMsg badId)) := by
  have hbeq : ∀ tok : String, tok ≠ "n" → (tok == "n") = false := by
    intro tok hn; simpa [beq_eq_false_iff_ne] using hn
  constructor
  · intro m line st tok h h3 hn
    simp only [parseSequenceLine] at h
    rw [h3] at h
    split at h
    · cases h
    · rename_i choicesVal heq
      simp only [resolveChoices, hbeq tok hn, Bool.false_eq_true, if_false] at heq
      cases hr : resolveList m (jsSplit tok ',') with
      | error e => rw [hr] at heq; cases heq
      | ok vals =>
        rw [hr] at heq
        injection heq with heq
        subst heq
        refine ⟨vals, ?_, resolveList_ok_forall₂ m _ _ hr⟩
        split at h <;> first
          | (injection h with h; subst h; simp)
          | cases h
  · intro m line tok h3 hn hmiss
    obtain ⟨badId, hbfalse, herr⟩ := resolveList_error_of_falsy m (jsSplit tok ',') hmiss
    refine ⟨badId, hbfalse, ?_⟩
    simp only [parseSequenceLine]
    rw [h3]
    simp [resolveChoices, hbeq tok hn, herr]

/-- Catalog for the C4 witness. -/
def c4SampleCatalog : StimMap :=
  { entries := [("I1", .image "image" (some "img/1.png") true)], proto := none }

/-- Sequence line for the C4 witness (choices token `I1,I1`). -/
def c4SampleLine : String := "0 s1 inf I1,I1 inf n 0 0 n n n n y"

/-- Step decoded from `c4SampleLine` against `c4SampleCatalog`. -/
def c4SampleStep : Step :=
  { onSetTime := .val 0, identifier := some "s1", stimulusDuration := .sentinel "inf",
    choices := .resolved [.obj (.image "image" (some "img/1.png") true),
      .obj (.image "image" (some "img/1.png") true)],
    choiceDuration := .sentinel "inf", answer := some "n",
    choiceOnsetRelativeToSim := .val 0, reactionTime := .val 0,
    feedbackType := some "n", feedbackDuration := .sentinel "n", test := some "y" }

/-- Witness for the amended C4: the choices token `I1,I1` resolves both
identifiers to their own catalog entries, in order. -/
theorem c4_choices_resolution_amended_witness :
    ∃ vals, c4SampleStep.choices = .resolved vals ∧
      List.Forall₂ (fun id v => getKey c4SampleCatalog id = v ∧ truthy v = true)
        (jsSplit "I1,I1" ',') vals :=
  c4_choices_resolution_amended.1 c4SampleCatalog c4SampleLine c4SampleStep "I1,I1"
    (by decide) (by decide) (by decide)

/-! ### Helper lemmas about stimulus decoding -/

/-- The five stimulus type tags with a decoding branch; every other tag
(including the declared-but-unimplemented `instruction` and `result`) hits
the `default` branch of the `switch`. -/
def validStimulusTags : List String := ["image", "text", "text_file", "audio", "video"]

/-- Whether the first token of a stimulus line is a tag outside the
supported variants. -/
def invalidStimulusTag (line : String) : Bool :=
  match (splitWithEscapedCharacter line ' ' '"')[0]? with
  | some t => !(validStimulusTags.contains t)
  | none => false

/-- A line whose type tag is not among the supported variants decodes to
the invalid-stimulus-type error. -/
theorem parseStimulusLine_invalid (line : String) (t : String)
    (h0 : (splitWithEscapedCharacter line ' ' '"')[0]? = some t)
    (hnot : t ∉ validStimulusTags) :
    parseStimulusLine line = .error (invalidStimulusTypeMsg t) := by
  have h1 : t ≠ "image" := fun he => hnot (he ▸ by decide)
  have h2 : t ≠ "text" := fun he => hnot (he ▸ by decide)
  have h3 : t ≠ "text_file" := fun he => hnot (he ▸ by decide)
  have h4 : t ≠ "audio" := fun he => hnot (he ▸ by decide)
  have h5 : t ≠ "video" := fun he => hnot (he ▸ by decide)
  simp only [parseStimulusLine]
  rw [h0]
  split
  · rename_i heq; injection heq with heq; exact absurd heq h1
  · rename_i heq; injection heq with heq; exact absurd heq h2
  · rename_i heq; injection heq with heq; exact absurd heq h3
  · rename_i heq; injection heq with heq; exact absurd heq h4
  · rename_i heq; injection heq with heq; exact absurd heq h5
  · rename_i other heq; injection heq with heq; rw [heq]
  · rename_i heq; cases heq

/-- The per-line decoding results of a stimulus section, in line order. -/
def decodedEntries : List String → Except String (List (String × Stimulus))
  | [] => .ok []
  | line :: rest =>
    match parseStimulusLine line with
    | .error e => .error e
    | .ok p =>
      match decodedEntries rest with
      | .error e => .error e
      | .ok ps => .ok (p :: ps)

/-! ### C7 -/

/-- Claim C7 (status: confirmed). A stimulus line whose first token is not
one of the five supported tags (in particular `instruction` or `result`)
decodes to the invalid-stimulus-type error, and a stimulus section
containing such a line makes the whole stimulus decoding fail, so no entity
is produced for it. -/
theorem c7_invalid_stimulus_type :
    (∀ (line : String) (t : String),
        (splitWithEscapedCharacter line ' ' '"')[0]? = some t →
        t ∉ validStimulusTags →
        parseStimulusLine line = .error (invalidStimulusTypeMsg t)) ∧
    (∀ (lines : List String) (m : StimMap),
        (∃ line ∈ lines, invalidStimulusTag line = true) →
        ∃ msg, parseStimulusFold lines m = .error msg) := by
  refine ⟨parseStimulusLine_invalid, ?_⟩
  intro lines
  induction lines with
  | nil => rintro m ⟨line, hmem, _⟩; cases hmem
  | cons line rest ih =>
    rintro m ⟨bad, hmem, hbad⟩
    simp only [parseStimulusFold]
    cases hp : parseStimulusLine line with
    | error e => exact ⟨e, rfl⟩
    | ok p =>
      obtain ⟨k, v⟩ := p
      rcases List.mem_cons.mp hmem with rfl | hr
      · exfalso
        unfold invalidStimulusTag at hbad
        cases h0 : (splitWithEscapedCharacter bad ' ' '"')[0]? with
        | none => rw [h0] at hbad; cases hbad
        | some t =>
          rw [h0] at hbad
          have hnot : t ∉ validStimulusTags := by simpa using hbad
          have herr := parseStimulusLine_invalid bad t h0 hnot
          rw [hp] at herr
          cases herr
      · exact ih (setKey m k v) ⟨bad, hr, hbad⟩

/-- Witness for C7: the tag `instruction` is rejected. -/
theorem c7_invalid_stimulus_type_witness :
    parseStimulusLine "instruction I3 foo" = .error (invalidStimulusTypeMsg "instruction") :=
  c7_invalid_stimulus_type.1 "instruction I3 foo" "instruction" (by decide) (by decide)

/-! ### Helper lemmas about the catalog map -/

theorem getOwn_setOwn (entries : List (String × Stimulus)) (k : String) (v : Stimulus)
    (id : String) :
    getOwn (setOwn entries k v) id = if k == id then some v else getOwn entries id := by
  induction entries with
  | nil =>
    simp only [setOwn, getOwn]
  | cons p rest ih =>
    obtain ⟨k', v'⟩ := p
    by_cases hk : k' = k
    · subst hk
      simp only [setOwn, beq_self_eq_true, if_true, getOwn]
      by_cases hid : (k' == id) = true <;> simp [hid]
    · have hkb : (k' == k) = false := by simpa [beq_eq_false_iff_ne] using hk
      simp only [setOwn, hkb, Bool.false_eq_true, if_false, getOwn, ih]
      by_cases hid : k' = id
      · subst hid
        have hkid : (k == k') = false := by
          simp [beq_eq_false_iff_ne]
          exact fun he => hk he.symm
        simp [hkid]
      · have hidb : (k' == id) = false := by simpa [beq_eq_false_iff_ne] using hid
        simp [hidb]

theorem mem_keys_setOwn (entries : List (String × Stimulus)) (k : String) (v : Stimulus)
    (id : String) :
    id ∈ (setOwn entries k v).map Prod.fst ↔ id ∈ entries.map Prod.fst ∨ id = k := by
  induction entries with
  | nil => simp [setOwn, eq_comm]
  | cons p rest ih =>
    obtain ⟨k', v'⟩ := p
    by_cases hk : k' = k
    · subst hk
      simp only [setOwn, beq_self_eq_true, if_true, List.map_cons, List.mem_cons]
      tauto
    · have hkb : (k' == k) = false := by simpa [beq_eq_false_iff_ne] using hk
      simp only [setOwn, hkb, Bool.false_eq_true, if_false, List.map_cons, List.mem_cons, ih]
      tauto

theorem nodup_keys_setOwn (entries : List (String × Stimulus)) (k : String) (v : Stimulus)
    (h : (entries.map Prod.fst).Nodup) : ((setOwn entries k v).map Prod.fst).Nodup := by
  induction entries with
  | nil => simp [setOwn]
  | cons p rest ih =>
    obtain ⟨k', v'⟩ := p
    simp only [List.map_cons, List.nodup_cons] at h
    by_cases hk : k' = k
    · subst hk
      simp only [setOwn, beq_self_eq_true, if_true]
      simp only [List.map_cons, List.nodup_cons]
      exact ⟨h.1, h.2⟩
    · have hkb : (k' == k) = false := by simpa [beq_eq_false_iff_ne] using hk
      simp only [setOwn, hkb, Bool.false_eq_true, if_false]
      simp only [List.map_cons, List.nodup_cons]
      refine ⟨?_, ih h.2⟩
      rw [mem_keys_setOwn]
      rintro (hmem | rfl)
      · exact h.1 hmem
      · exact hk rfl

theorem setKey_entries (m : StimMap) (k : String) (v : Stimulus) :
    (setKey m k v).entries =
      if k == "__proto__" then m.entries else setOwn m.entries k v := by
  by_cases h : (k == "__proto__") = true <;> simp [setKey, h]

theorem setKey_proto (m : StimMap) (k : String) (v : Stimulus) :
    (setKey m k v).proto = if k == "__proto__" then some v else m.proto := by
  by_cases h : (k == "__proto__") = true <;> simp [setKey, h]

/-- Folding the decoded entries into a catalog with the JavaScript property
write. -/
def insertAll (m : StimMap) (es : List (String × Stimulus)) : StimMap :=
  es.foldl (fun acc p => setKey acc p.1 p.2) m

/-- Own-key reads after the fold, for keys other than `__proto__`: the last
write wins, earlier state is the fallback. -/
theorem getOwn_insertAll (es : List (String × Stimulus)) :
    ∀ (m : StimMap) (id : String), id ≠ "__proto__" →
      getOwn (insertAll m es).entries id =
        match es.reverse.find? (fun p => p.1 == id) with
        | some p => some p.2
        | none => getOwn m.entries id := by
  induction es with
  | nil => intro m id _; simp [insertAll]
  | cons p es ih =>
    intro m id hid
    have hstep : insertAll m (p :: es) = insertAll (setKey m p.1 p.2) es := rfl
    rw [hstep, ih (setKey m p.1 p.2) id hid]
    rw [List.reverse_cons, List.find?_append]
    cases hf : es.reverse.find? (fun q => q.1 == id) with
    | some q => simp [Option.or]
    | none =>
      simp only [Option.or]
      by_cases hp : p.1 = "__proto__"
      · have hpk : (p.1 == id) = false := by
          simp only [beq_eq_false_iff_ne]
          rw [hp]
          exact fun he => hid he.symm
        have hpb : (p.1 == "__proto__") = true := by simpa [beq_iff_eq] using hp
        simp [List.find?, hpk, setKey_entries, hpb]
      · have hpb : (p.1 == "__proto__") = false := by simpa [beq_eq_false_iff_ne] using hp
        cases hpk : (p.1 == id) with
        | true => simp [List.find?, hpk, setKey_entries, hpb, getOwn_setOwn]
        | false => simp [List.find?, hpk, setKey_entries, hpb, getOwn_setOwn]

/-- No write of the fold ever creates an own `__proto__` key. -/
theorem getOwn_insertAll_proto_key (es : List (String × Stimulus)) :
    ∀ m : StimMap,
      getOwn (insertAll m es).entries "__proto__" = getOwn m.entries "__proto__" := by
  induction es with
  | nil => intro m; rfl
  | cons p es ih =>
    intro m
    have hstep : insertAll m (p :: es) = insertAll (setKey m p.1 p.2) es := rfl
    rw [hstep, ih (setKey m p.1 p.2)]
    by_cases hp : (p.1 == "__proto__") = true
    · simp [setKey_entries, hp]
    · simp [setKey_entries, hp, getOwn_setOwn]

/-- The prototype slot after the fold holds the entity of the last decoded
`__proto__` line, if any. -/
theorem proto_insertAll (es : List (String × Stimulus)) :
    ∀ m : StimMap,
      (insertAll m es).proto =
        match es.reverse.find? (fun p => p.1 == "__proto__") with
        | some p => some p.2
        | none => m.proto := by
  induction es with
  | nil => intro m; simp [insertAll]
  | cons p es ih =>
    intro m
    have hstep : insertAll m (p :: es) = insertAll (setKey m p.1 p.2) es := rfl
    rw [hstep, ih (setKey m p.1 p.2)]
    rw [List.reverse_cons, List.find?_append]
    cases hf : es.reverse.find? (fun q => q.1 == "__proto__") with
    | some q => simp [Option.or]
    | none =>
      simp only [Option.or]
      cases hpk : (p.1 == "__proto__") with
      | true => simp [List.find?, hpk, setKey_proto]
      | false => simp [List.find?, hpk, setKey_proto]

theorem nodup_keys_insertAll (es : List (String × Stimulus)) :
    ∀ m : StimMap, (m.entries.map Prod.fst).Nodup →
      ((insertAll m es).entries.map Prod.fst).Nodup := by
  induction es with
  | nil => intro m h; exact h
  | cons p es ih =>
    intro m h
    refine ih (setKey m p.1 p.2) ?_
    by_cases hp : (p.1 == "__proto__") = true
    · simpa [setKey_entries, hp] using h
    · simpa [setKey_entries, hp] using nodup_keys_setOwn m.entries p.1 p.2 h

theorem parseStimulusFold_ok_insertAll :
    ∀ (lines : List String) (m₀ m : StimMap),
      parseStimulusFold lines m₀ = .ok m →
      ∃ es, decodedEntries lines = .ok es ∧ m = insertAll m₀ es := by
  intro lines
  induction lines with
  | nil =>
    intro m₀ m h
    injection h with h
    exact ⟨[], rfl, h.symm⟩
  | cons line rest ih =>
    intro m₀ m h
    simp only [parseStimulusFold] at h
    cases hp : parseStimulusLine line with
    | error e => rw [hp] at h; cases h
    | ok p =>
      rw [hp] at h
      obtain ⟨k, v⟩ := p
      obtain ⟨es, hd, hm⟩ := ih (setKey m₀ k v) m h
      exact ⟨(k, v) :: es, by simp [decodedEntries, hp, hd], hm⟩

/-! ### C8 -/

/-- Counterexample to claim C8 as stated. The single line decodes
successfully with identifier `__proto__`, but the assignment
`this.stimulus["__proto__"] = entity` hits the inherited `__proto__`
setter: it replaces the prototype of the catalog object and creates no own
key, so the successfully decoded identifier is NOT present in the catalog
as a key. -/
theorem c8_proto_counterexample :
    parseStimulusFold ["image __proto__ img/x.png t"] emptyStimMap =
      .ok { entries := [], proto := some (.image "image" (some "img/x.png") true) } ∧
    decodedEntries ["image __proto__ img/x.png t"] =
      .ok [("__proto__", .image "image" (some "img/x.png") true)] ∧
    "__proto__" ∉
      ({ entries := [], proto := some (.image "image" (some "img/x.png") true) } :
        StimMap).entries.map Prod.fst := by
  decide

/-- Claim C8 (status: corrected). Amended statement: when a whole stimulus
section decodes successfully, every identifier OTHER THAN `__proto__`
follows last-write-wins — the final catalog maps it to the entity of the
last decoded line carrying it, each such decoded identifier is present
exactly once as an own key (keys are pairwise distinct), and `__proto__`
is never an own key: a line decoding that identifier instead replaces the
catalog object's prototype with its entity (last such line wins for the
prototype slot). -/
theorem c8_last_write_wins_amended (lines : List String) (m : StimMap)
    (h : parseStimulusFold lines emptyStimMap = .ok m) :
    ∃ entries, decodedEntries lines = .ok entries ∧
      (∀ id, id ≠ "__proto__" →
        getOwn m.entries id =
          (match entries.reverse.find? (fun p => p.1 == id) with
            | some p => some p.2
            | none => none)) ∧
      getOwn m.entries "__proto__" = none ∧
      m.proto =
        (match entries.reverse.find? (fun p => p.1 == "__proto__") with
          | some p => some p.2
          | none => none) ∧
      (m.entries.map Prod.fst).Nodup ∧
      (∀ id, (getOwn m.entries id).isSome ↔ id ≠ "__proto__" ∧ id ∈ entries.map Prod.fst) := by
  obtain ⟨es, hd, hm⟩ := parseStimulusFold_ok_insertAll lines emptyStimMap m h
  subst hm
  have hproto_own : getOwn (insertAll emptyStimMap es).entries "__proto__" = none := by
    rw [getOwn_insertAll_proto_key]
    rfl
  refine ⟨es, hd, ?_, hproto_own, ?_, nodup_keys_insertAll es emptyStimMap (by simp [emptyStimMap]), ?_⟩
  · intro id hid
    rw [getOwn_insertAll es emptyStimMap id hid]
    cases es.reverse.find? (fun p => p.1 == id) <;> simp [emptyStimMap, getOwn]
  · rw [proto_insertAll es emptyStimMap]
    cases es.reverse.find? (fun p => p.1 == "__proto__") <;> simp [emptyStimMap]
  · intro id
    by_cases hid : id = "__proto__"
    · subst hid
      rw [hproto_own]
      simp
    · rw [getOwn_insertAll es emptyStimMap id hid]
      cases hf : es.reverse.find? (fun p => p.1 == id) with
      | some q =>
        simp only [Option.isSome_some, true_iff]
        refine ⟨hid, ?_⟩
        have hq : q.1 = id := by simpa using List.find?_some hf
        have hqmem : q ∈ es := List.mem_reverse.mp (List.mem_of_find?_eq_some hf)
        exact hq ▸ List.mem_map_of_mem Prod.fst hqmem
      | none =>
        simp only [emptyStimMap, getOwn, Option.isSome_none, Bool.false_eq_true, false_iff]
        rintro ⟨-, hmem⟩
        obtain ⟨q, hqmem, hq⟩ := List.mem_map.mp hmem
        have hsome : (es.reverse.find? (fun p => p.1 == id)).isSome := by
          rw [List.find?_isSome]
          exact ⟨q, List.mem_reverse.mpr hqmem, by simp [hq]⟩
        rw [hf] at hsome
        cases hsome

/-- Stimulus section with a duplicated identifier for the C8 witness. -/
def c8SampleLines : List String :=
  ["image I1 img/a.png t", "image I2 img/b.png t", "image I1 img/c.png t"]

/-- Catalog produced from `c8SampleLines`: `I1` holds the entity of the
last line, keys are unique, the prototype is untouched. -/
def c8SampleMap : StimMap :=
  { entries := [("I1", .image "image" (some "img/c.png") true),
                ("I2", .image "image" (some "img/b.png") true)],
    proto := none }

/-- Witness for the amended C8 on a section whose first and third lines
share the identifier `I1`. -/
theorem c8_last_write_wins_amended_witness :
    ∃ entries, decodedEntries c8SampleLines = .ok entries ∧
      (∀ id, id ≠ "__proto__" →
        getOwn c8SampleMap.entries id =
          (match entries.reverse.find? (fun p => p.1 == id) with
            | some p => some p.2
            | none => none)) ∧
      getOwn c8SampleMap.entries "__proto__" = none ∧
      c8SampleMap.proto =
        (match entries.reverse.find? (fun p => p.1 == "__proto__") with
          | some p => some p.2
          | none => none) ∧
      (c8SampleMap.entries.map Prod.fst).Nodup ∧
      (∀ id, (getOwn c8SampleMap.entries id).isSome ↔
        id ≠ "__proto__" ∧ id ∈ entries.map Prod.fst) :=
  c8_last_write_wins_amended c8SampleLines c8SampleMap (by decide)

/-! ### C9 -/

/-- Claim C9 (status: confirmed). The full compilation pipeline is a pure
function of the raw script text: the embedding of `new Parser(text).execute()`
carries no state besides the instance fields, and the constructor
initializes every one of them from `rawInstructions` alone (in particular
`this.stimulus = {}`), so two runs on the same text produce identical
documents and no state of a prior run can influence the result. -/
theorem c9_deterministic (rawInstructions : String)
    (r₁ r₂ : Except String ParseResult)
    (h₁ : r₁ = execute rawInstructions) (h₂ : r₂ = execute rawInstructions) :
    r₁ = r₂ :=
  h₁.trans h₂.symm

/-- Full well-formed script used by the C9 witness. -/
def c9SampleScript : String :=
  "[Descriptions]\nimage I1 img/1.png true\n[EndDescriptions]\n[PreSeq]\n0 s1 inf I1 inf n 0 0 n n n n y\n[EndPreSeq]\n[MainSeq]\n[EndMainSeq]\n[PostSeq]\n[EndPostSeq]"

/-- Witness for C9: two runs of the pipeline on the same concrete script. -/
theorem c9_deterministic_witness :
    execute c9SampleScript = execute c9SampleScript :=
  c9_deterministic c9SampleScript (execute c9SampleScript) (execute c9SampleScript) rfl rfl

end WebbrainParser
